import Mathlib

/-!
Shallow embedding of `pkg/media/oggreader/oggreader.go` (package `oggreader`).

The byte source (`io.ReadSeeker` backed by a byte buffer, as in `bytes.Reader`)
is modelled as a list of bytes plus a cursor.  `Read` into a buffer of size `n`
returns `min n remaining` bytes (zero bytes remaining yields `io.EOF`), and
`Seek` relative to the current position fails exactly when the resulting
absolute position would be negative.  Bytes are natural numbers; all
little-endian field decodings are expressed over them.  Go runtime panics
(out-of-range slicing such as `payload[:8]` on a shorter payload) are modelled
as the distinguished error `panicSliceOutOfRange`, and the unbounded `for` loop
of `readHeaders` is given explicit fuel, with `outOfFuel` marking the
(unreachable, as proved below) exhaustion case.
-/

namespace Ogg

/-- Decidable equality for `Except`, used to evaluate reader results on
concrete inputs. -/
instance {ε α : Type} [DecidableEq ε] [DecidableEq α] : DecidableEq (Except ε α) := fun a b =>
  match a, b with
  | .error e, .error f =>
    if h : e = f then isTrue (congrArg Except.error h)
    else isFalse (fun hh => h (Except.error.inj hh))
  | .error _, .ok _ => isFalse (fun hh => Except.noConfusion hh)
  | .ok _, .error _ => isFalse (fun hh => Except.noConfusion hh)
  | .ok x, .ok y =>
    if h : x = y then isTrue (congrArg Except.ok h)
    else isFalse (fun hh => h (Except.ok.inj hh))

/-- Byte access into a list, defaulting to 0 (Go buffers are zero-initialised). -/
def byteAt (l : List Nat) (i : Nat) : Nat := l.getD i 0

/-- The `len` bytes starting at offset `off` (truncated at the end of the list). -/
def bytesAt (l : List Nat) (off len : Nat) : List Nat := (l.drop off).take len

/-- Little-endian value of a byte sequence (`binary.LittleEndian.UintNN`). -/
def leUint (l : List Nat) : Nat := l.foldr (fun b acc => b + 256 * acc) 0

/-- Little-endian encoding of `v` into `n` bytes. -/
def leBytes : Nat → Nat → List Nat
  | 0, _ => []
  | n + 1, v => v % 256 :: leBytes n (v / 256)

/-- ASCII bytes of the page capture pattern `"OggS"` (`pageHeaderSignature`). -/
def oggSBytes : List Nat := [79, 103, 103, 83]

/-- ASCII bytes of `"OpusHead"` (`idPageSignature`). -/
def opusHeadBytes : List Nat := [79, 112, 117, 115, 72, 101, 97, 100]

/-- ASCII bytes of `"OpusTags"` (`commentPageSignature`). -/
def opusTagsBytes : List Nat := [79, 112, 117, 115, 84, 97, 103, 115]

/-- Go constant `pageHeaderLen = 28`. -/
abbrev pageHeaderLen : Nat := 28

/-- Go constant `pageHeaderTypeBeginningOfStream = 0x02`. -/
abbrev pageHeaderTypeBeginningOfStream : Nat := 2

/-- The seekable byte source: backing bytes plus the cursor position
(model of the `io.ReadSeeker` stored in `OggReader.stream`). -/
structure ByteStream where
  data : List Nat
  pos : Nat
deriving DecidableEq

/-- Error outcomes of the reader operations.  `eof` is `io.EOF` from the
underlying source; `headerLenMismatch`, `badHeaderSignature`,
`wrongHeaderType`, `badHeaderSize`, `wrongOpusSignature` and `nilStream`
correspond to the `fmt.Errorf` returns of the Go code;
`panicSliceOutOfRange` models a Go runtime slice-bounds panic;
`negativeSeek` models `bytes.Reader.Seek` rejecting a negative position;
`outOfFuel` marks exhaustion of the explicit fuel given to the comment-page
loop (the Go loop is unbounded). -/
inductive OggErr where
  | eof
  | headerLenMismatch
  | badHeaderSignature
  | wrongHeaderType
  | badHeaderSize
  | wrongOpusSignature
  | panicSliceOutOfRange
  | negativeSeek
  | nilStream
  | outOfFuel
deriving DecidableEq

/-- `OggPageHeader`: the metadata for a page, decoded from the 28 header bytes. -/
structure OggPageHeader where
  sig : List Nat
  version : Nat
  headerType : Nat
  granulePos : Nat
  serial : Nat
  index : Nat
  segmentsCount : Nat
  checksum : Nat
deriving DecidableEq

/-- `OggHeader`: the metadata decoded from the ID page payload. -/
structure OggHeader where
  ChannelMap : Nat
  Channels : Nat
  OutputGain : Nat
  PreSkip : Nat
  SampleRate : Nat
  Version : Nat
deriving DecidableEq

/-- `OggReader`: the stream plus the `bytesReadSuccesfully` counter. -/
structure OggReader where
  stream : ByteStream
  bytesReadSuccesfully : Nat
deriving DecidableEq

/-- Field decoding of the 28 header bytes `h` into an `OggPageHeader`
(the assignments at lines 138–149 of the source). -/
def mkPageHeader (h : List Nat) (checksum : Nat) : OggPageHeader :=
  { sig := h.take 4
    version := byteAt h 4
    headerType := byteAt h 5
    granulePos := leUint (bytesAt h 6 8)
    serial := leUint (bytesAt h 14 4)
    index := leUint (bytesAt h 18 4)
    segmentsCount := byteAt h 26
    checksum := checksum }

/-- Relative seek (`stream.Seek(offset, io.SeekCurrent)` on a `bytes.Reader`):
fails when the resulting absolute position would be negative. -/
def seekBy (s : ByteStream) (offset : Int) : Except OggErr ByteStream :=
  if (s.pos : Int) + offset < 0 then .error .negativeSeek
  else .ok ⟨s.data, ((s.pos : Int) + offset).toNat⟩

/-- `ParseNextPage` on the stream: reads the 28 header bytes (erroring with
`eof` when no bytes remain and `headerLenMismatch` when fewer than 28 remain),
decodes the header fields, then — when the declared payload size (header byte
27) is non-zero — issues one `Read` into a zero-initialised buffer of that
size.  Faithful to the source, the byte count of that payload `Read` is
discarded (`if _, err = o.stream.Read(payload)`), so a short read leaves the
tail of the buffer zero and still succeeds; the checksum (header bytes 22–25)
is recorded only on that non-zero-size path. -/
def parseNextPage (s : ByteStream) : Except OggErr (List Nat × OggPageHeader) × ByteStream :=
  if s.data.length - s.pos = 0 then (.error .eof, s)
  else if s.data.length - s.pos < pageHeaderLen then
    (.error .headerLenMismatch, ⟨s.data, s.pos + (s.data.length - s.pos)⟩)
  else
    let hdr := bytesAt s.data s.pos pageHeaderLen
    let payloadSize := byteAt hdr 27
    if payloadSize = 0 then
      (.ok ([], mkPageHeader hdr 0), ⟨s.data, s.pos + pageHeaderLen⟩)
    else if s.data.length - (s.pos + pageHeaderLen) = 0 then
      (.error .eof, ⟨s.data, s.pos + pageHeaderLen⟩)
    else
      let n := min payloadSize (s.data.length - (s.pos + pageHeaderLen))
      (.ok (bytesAt s.data (s.pos + pageHeaderLen) n ++ List.replicate (payloadSize - n) 0,
            mkPageHeader hdr (leUint (bytesAt hdr 22 4))),
       ⟨s.data, s.pos + pageHeaderLen + n⟩)

/-- Decoding of the `OggHeader` fields from the ID page payload
(lines 100–105 of the source). -/
def decodeOggHeader (payload : List Nat) : OggHeader :=
  { ChannelMap := byteAt payload 18
    Channels := byteAt payload 9
    OutputGain := leUint (bytesAt payload 16 2)
    PreSkip := leUint (bytesAt payload 10 2)
    SampleRate := leUint (bytesAt payload 12 4)
    Version := byteAt payload 8 }

/-- Whether `hay` starts with `needle`. -/
def startsWith (needle hay : List Nat) : Bool := decide (hay.take needle.length = needle)

/-- Substring search over byte sequences (`bytes.Contains`). -/
def containsBytes (needle : List Nat) : List Nat → Bool
  | [] => decide (needle = [])
  | b :: t => startsWith needle (b :: t) || containsBytes needle t

/-- The comment-page-skipping loop of `readHeaders` (lines 108–121), with
explicit fuel for the unbounded Go `for`: parse a page; if its payload
contains `"OpusTags"` continue, otherwise seek back by
`28 + len(payload)` bytes and stop. -/
def commentLoop : Nat → ByteStream → Except OggErr Unit × ByteStream
  | 0, s => (.error .outOfFuel, s)
  | fuel + 1, s =>
    match parseNextPage s with
    | (.error e, s') => (.error e, s')
    | (.ok (payload, _), s') =>
      if containsBytes opusTagsBytes payload then
        commentLoop fuel s'
      else
        match seekBy s' (-(((pageHeaderLen + payload.length : Nat)) : Int)) with
        | .error e => (.error e, s')
        | .ok s2 => (.ok (), s2)

/-- `readHeaders`: parse the first page, validate signature / header type /
payload, decode the `OggHeader`, then skip comment pages.  The checks appear
in source order; the two `panicSliceOutOfRange` cases model the Go runtime
panics of `payload[:8]` (resp. the fixed-offset field accesses up to
`payload[18]`) when the payload is shorter than 8 (resp. 19) bytes — the
source's `TODO make sure payload is big enough` marks the missing guard. -/
def readHeaders (fuel : Nat) (s : ByteStream) : Except OggErr OggHeader × ByteStream :=
  match parseNextPage s with
  | (.error e, s') => (.error e, s')
  | (.ok (payload, ph), s1) =>
    if ph.sig ≠ oggSBytes then (.error .badHeaderSignature, s1)
    else if ph.headerType ≠ pageHeaderTypeBeginningOfStream then (.error .wrongHeaderType, s1)
    else if payload.length = 0 then (.error .badHeaderSize, s1)
    else if payload.length < 8 then (.error .panicSliceOutOfRange, s1)
    else if payload.take 8 ≠ opusHeadBytes then (.error .wrongOpusSignature, s1)
    else if payload.length < 19 then (.error .panicSliceOutOfRange, s1)
    else
      match commentLoop fuel s1 with
      | (.error e, s2) => (.error e, s2)
      | (.ok (), s2) => (.ok (decodeOggHeader payload), s2)

/-- `NewWith`: nil-source check, then `readHeaders`; on success the reader is
returned with the counter at its zero value.  The fuel handed to the comment
loop exceeds any possible number of iterations over the finite source. -/
def NewWith : Option ByteStream → Except OggErr (OggReader × OggHeader)
  | none => .error .nilStream
  | some s =>
    match readHeaders (s.data.length + 1) s with
    | (.error e, _) => .error e
    | (.ok h, s') => .ok ({ stream := s', bytesReadSuccesfully := 0 }, h)

/-- `ParseNextPage` as the reader method: only the stream field is updated. -/
def OggReader.ParseNextPage (r : OggReader) : Except OggErr (List Nat × OggPageHeader) × OggReader :=
  ((parseNextPage r.stream).1, { r with stream := (parseNextPage r.stream).2 })

/-- `ResetReader`: installs `reset(o.bytesReadSuccesfully)` as the new stream. -/
def OggReader.ResetReader (r : OggReader) (reset : Nat → ByteStream) : OggReader :=
  { r with stream := reset r.bytesReadSuccesfully }

/-- Iterated page reads on a reader (to speak about any sequence of calls). -/
def iterParse (r : OggReader) : Nat → OggReader
  | 0 => r
  | n + 1 => iterParse (r.ParseNextPage).2 n

/-- A page with the given header type, segments count, zero
granule/serial/index/checksum bytes, and the given payload. -/
def mkPage (headerType segments : Nat) (payload : List Nat) : List Nat :=
  oggSBytes ++ [0, headerType] ++ List.replicate 20 0 ++ [segments, payload.length] ++ payload

/-- A well-formed ID page payload: `"OpusHead"`, version 1, 2 channels,
preSkip 16, sample rate 48000, output gain 0, channel map 0. -/
def idPayload : List Nat := opusHeadBytes ++ [1, 2, 16, 0, 128, 187, 0, 0, 0, 0, 0]

/-- A well-formed stream: ID page, one `"OpusTags"` comment page, one
3-byte audio page. -/
def goodData : List Nat :=
  mkPage 2 1 idPayload ++ mkPage 0 1 opusTagsBytes ++ mkPage 0 1 [5, 6, 7]

/-- A stream whose single page declares a 5-byte payload but carries only 2
payload bytes. -/
def c1Data : List Nat := oggSBytes ++ [0, 0] ++ List.replicate 20 0 ++ [1, 5] ++ [10, 20]

/-- A first page whose header type is `0x03` (beginning-of-stream bit set
plus the continuation bit) and whose payload is a valid ID payload. -/
def c2Data : List Nat := mkPage 3 1 idPayload

/-- A first page with valid signature and header type whose payload has only
3 bytes. -/
def c3Data : List Nat := mkPage 2 1 [1, 2, 3]

/-! Bridge lemmas between buffer-relative and stream-relative byte access. -/

lemma byteAt_bytesAt (l : List Nat) (p n i : Nat) (h : i < n) :
    byteAt (bytesAt l p n) i = byteAt l (p + i) := by
  simp [byteAt, bytesAt, List.getD_eq_getElem?_getD, List.getElem?_take_of_lt h,
    List.getElem?_drop]

lemma bytesAt_bytesAt (l : List Nat) (p n off len : Nat) (h : off + len ≤ n) :
    bytesAt (bytesAt l p n) off len = bytesAt l (p + off) len := by
  show ((((l.drop p).take n).drop off).take len) = (l.drop (p + off)).take len
  rw [List.drop_take, List.drop_drop, List.take_take, Nat.min_eq_left (by omega)]

lemma length_bytesAt (l : List Nat) (off len : Nat) :
    (bytesAt l off len).length = min len (l.length - off) := by
  simp [bytesAt]

lemma take_bytesAt (l : List Nat) (p n k : Nat) (h : k ≤ n) :
    (bytesAt l p n).take k = bytesAt l p k := by
  show ((l.drop p).take n).take k = (l.drop p).take k
  rw [List.take_take, Nat.min_eq_left h]

lemma leUint_leBytes (n v : Nat) : leUint (leBytes n v) = v % 256 ^ n := by
  induction n generalizing v with
  | zero => simp [leBytes, leUint, Nat.mod_one]
  | succ n ih =>
    show v % 256 + 256 * leUint (leBytes n (v / 256)) = v % 256 ^ (n + 1)
    rw [ih, pow_succ, Nat.mul_comm (256 ^ n) 256, Nat.mod_mul]

/-- Evaluation of `parseNextPage` on a complete page: when the source holds
the 28 header bytes and the full declared payload, the parse succeeds, the
cursor advances by `28 + size`, and the checksum is taken from header bytes
22–25 exactly when the size is non-zero. -/
lemma parse_complete (d : List Nat) (p sz : Nat)
    (hsz : sz = byteAt d (p + 27)) (hav : p + 28 + sz ≤ d.length) :
    parseNextPage ⟨d, p⟩ =
      (.ok (bytesAt d (p + 28) sz,
            mkPageHeader (bytesAt d p 28)
              (if sz = 0 then 0 else leUint (bytesAt d (p + 22) 4))),
       ⟨d, p + 28 + sz⟩) := by
  have h0 : ¬(d.length - p = 0) := by omega
  have h1 : ¬(d.length - p < pageHeaderLen) := by simp only [pageHeaderLen]; omega
  have hb : byteAt (bytesAt d p pageHeaderLen) 27 = byteAt d (p + 27) :=
    byteAt_bytesAt d p pageHeaderLen 27 (by norm_num)
  by_cases h2 : sz = 0
  · simp only [parseNextPage, if_neg h0, if_neg h1, hb, ← hsz, h2, if_pos rfl,
      if_pos (rfl : (0 : Nat) = 0)]
    simp [bytesAt, h2, mkPageHeader]
  · have h3 : ¬(d.length - (p + pageHeaderLen) = 0) := by
      simp only [pageHeaderLen]; omega
    have hn : min sz (d.length - (p + pageHeaderLen)) = sz := by
      simp only [pageHeaderLen]; omega
    simp only [parseNextPage, if_neg h0, if_neg h1, hb, ← hsz, if_neg h2, if_neg h3, hn]
    rw [bytesAt_bytesAt d p pageHeaderLen 22 4 (by norm_num)]
    simp [h2, Nat.sub_self]

/-- The result of `parseNextPage` is `eof`, `headerLenMismatch`, or a success. -/
lemma parse_result_shape (s : ByteStream) :
    (parseNextPage s).1 = .error .eof ∨ (parseNextPage s).1 = .error .headerLenMismatch ∨
    ∃ pl ph, (parseNextPage s).1 = .ok (pl, ph) := by
  obtain ⟨d, p⟩ := s
  by_cases h0 : d.length - p = 0
  · left; simp [parseNextPage, h0]
  by_cases h1 : d.length - p < pageHeaderLen
  · right; left; simp [parseNextPage, h0, h1]
  by_cases h2 : byteAt (bytesAt d p pageHeaderLen) 27 = 0
  · right; right
    simp only [parseNextPage, if_neg h0, if_neg h1, if_pos h2]
    exact ⟨_, _, rfl⟩
  by_cases h3 : d.length - (p + pageHeaderLen) = 0
  · left; simp [parseNextPage, h0, h1, h2, h3]
  · right; right
    simp only [parseNextPage, if_neg h0, if_neg h1, if_neg h2, if_neg h3]
    exact ⟨_, _, rfl⟩

/-- A failing `parseNextPage` fails with `eof` or `headerLenMismatch`. -/
lemma parse_error_kinds (s : ByteStream) (e : OggErr)
    (h : (parseNextPage s).1 = .error e) : e = .eof ∨ e = .headerLenMismatch := by
  rcases parse_result_shape s with h1 | h1 | ⟨pl, ph, h1⟩ <;> rw [h] at h1
  · exact Or.inl (Except.error.inj h1)
  · exact Or.inr (Except.error.inj h1)
  · exact Except.noConfusion h1

/-- A successful `parseNextPage` keeps the backing bytes, advances the cursor
by at least the 28 header bytes, and never moves it past the end. -/
lemma parse_ok_bounds (s : ByteStream) (pl : List Nat) (ph : OggPageHeader)
    (s' : ByteStream) (h : parseNextPage s = (.ok (pl, ph), s')) :
    s'.data = s.data ∧ s.pos + 28 ≤ s'.pos ∧ s'.pos ≤ s.data.length := by
  obtain ⟨d, p⟩ := s
  by_cases h0 : d.length - p = 0
  · simp only [parseNextPage, if_pos h0] at h
    injection h with ha _; exact Except.noConfusion ha
  by_cases h1 : d.length - p < pageHeaderLen
  · simp only [parseNextPage, if_neg h0, if_pos h1] at h
    injection h with ha _; exact Except.noConfusion ha
  by_cases h2 : byteAt (bytesAt d p pageHeaderLen) 27 = 0
  · simp only [parseNextPage, if_neg h0, if_neg h1, if_pos h2] at h
    injection h with _ hb
    subst hb
    refine ⟨rfl, ?_, ?_⟩ <;> simp only [pageHeaderLen] at * <;> omega
  by_cases h3 : d.length - (p + pageHeaderLen) = 0
  · simp only [parseNextPage, if_neg h0, if_neg h1, if_neg h2, if_pos h3] at h
    injection h with ha _; exact Except.noConfusion ha
  · simp only [parseNextPage, if_neg h0, if_neg h1, if_neg h2, if_neg h3] at h
    injection h with _ hb
    subst hb
    refine ⟨rfl, ?_, ?_⟩ <;> simp only [pageHeaderLen] at * <;> omega

/-- A failing `seekBy` fails with `negativeSeek`. -/
lemma seekBy_error_kind (s : ByteStream) (off : Int) (e : OggErr)
    (h : seekBy s off = .error e) : e = .negativeSeek := by
  simp only [seekBy] at h
  split_ifs at h
  exact (Except.error.inj h).symm

/-- Every error produced by the comment-page loop is `eof`,
`headerLenMismatch`, `negativeSeek` or `outOfFuel`. -/
lemma commentLoop_error_kinds (fuel : Nat) (s : ByteStream) (e : OggErr)
    (h : (commentLoop fuel s).1 = .error e) :
    e = .eof ∨ e = .headerLenMismatch ∨ e = .negativeSeek ∨ e = .outOfFuel := by
  induction fuel generalizing s with
  | zero =>
    simp only [commentLoop] at h
    exact Or.inr (Or.inr (Or.inr (Except.error.inj h).symm))
  | succ n ih =>
    rcases hp : parseNextPage s with ⟨res, s'⟩
    cases res with
    | error e' =>
      simp only [commentLoop, hp] at h
      have he' : (parseNextPage s).1 = .error e' := by rw [hp]
      rcases parse_error_kinds s e' he' with h1 | h1 <;>
        rw [Except.error.inj h] at h1 <;> tauto
    | ok pr =>
      obtain ⟨pl, ph⟩ := pr
      by_cases hc : containsBytes opusTagsBytes pl = true
      · simp only [commentLoop, hp, hc, if_true] at h
        exact ih s' h
      · simp only [Bool.not_eq_true] at hc
        simp only [commentLoop, hp, hc, Bool.false_eq_true, if_false] at h
        cases hs2 : seekBy s' (-(((pageHeaderLen + pl.length : Nat)) : Int)) with
        | error e2 =>
          rw [hs2] at h
          simp only at h
          rw [← Except.error.inj h]
          exact Or.inr (Or.inr (Or.inl (seekBy_error_kind _ _ _ hs2)))
        | ok s2 =>
          rw [hs2] at h
          exact Except.noConfusion h

/-- With fuel bounding the remaining bytes, the comment-page loop never
exhausts its fuel: each iteration consumes at least 28 bytes. -/
lemma commentLoop_not_outOfFuel (fuel : Nat) (s : ByteStream)
    (hs : s.data.length - s.pos < 28 * fuel) :
    (commentLoop fuel s).1 ≠ .error .outOfFuel := by
  induction fuel generalizing s with
  | zero => omega
  | succ n ih =>
    rcases hp : parseNextPage s with ⟨res, s'⟩
    cases res with
    | error e =>
      simp only [commentLoop, hp]
      intro hcon
      have he : (parseNextPage s).1 = .error e := by rw [hp]
      rcases parse_error_kinds s e he with h1 | h1 <;> subst h1 <;>
        exact OggErr.noConfusion (Except.error.inj hcon)
    | ok pr =>
      obtain ⟨pl, ph⟩ := pr
      obtain ⟨hd, hlo, hhi⟩ := parse_ok_bounds s pl ph s' hp
      by_cases hc : containsBytes opusTagsBytes pl = true
      · simp only [commentLoop, hp, hc, if_true]
        exact ih s' (by rw [hd]; omega)
      · simp only [Bool.not_eq_true] at hc
        simp only [commentLoop, hp, hc, Bool.false_eq_true, if_false]
        cases hs2 : seekBy s' (-(((pageHeaderLen + pl.length : Nat)) : Int)) with
        | error e2 =>
          simp only
          intro hcon
          have : e2 = .negativeSeek := seekBy_error_kind _ _ _ hs2
          subst this
          exact OggErr.noConfusion (Except.error.inj hcon)
        | ok s2 => simp only; exact fun hcon => Except.noConfusion hcon

/-! Theorems for the individual claims. -/

/-- Claim C1 (code bug): on a stream whose single page header declares a
5-byte payload but whose source holds only 2 further bytes, `ParseNextPage`
returns success with the payload zero-padded to the declared size instead of
failing with a short-read error — the byte count of the payload `Read` is
discarded by the code. -/
theorem parseNextPage_shortRead_zeroPads :
    parseNextPage ⟨c1Data, 0⟩ =
      (.ok ([10, 20, 0, 0, 0],
            { sig := oggSBytes, version := 0, headerType := 0, granulePos := 0,
              serial := 0, index := 0, segmentsCount := 1, checksum := 0 }),
       ⟨c1Data, 30⟩) := by decide

/-- Claim C2 (counterexample): a first page whose header type is `0x03` —
the beginning-of-stream bit together with the continuation bit — and which is
otherwise fully valid is rejected by construction with the wrong-header-type
error, because the code compares `headerType` for equality with `0x02`
instead of testing the bit. -/
theorem newWith_bosWithExtraFlag_rejected :
    NewWith (some ⟨c2Data, 0⟩) = .error .wrongHeaderType := by decide

/-- Claim C3 (code bug): a first page with valid signature, header type
`0x02` and a non-empty 3-byte payload does not fail with a format error:
the slice `payload[:8]` is out of range for the 3-byte payload, a Go runtime
panic (modelled as `panicSliceOutOfRange`). -/
theorem newWith_shortPayload_panics :
    NewWith (some ⟨c3Data, 0⟩) = .error .panicSliceOutOfRange := by decide

/-- Claim C9: construction with an absent (`nil`) source fails immediately
with the nil-source error; no reader and no header are produced, and no byte
of any source is consumed. -/
theorem newWith_none_nilError : NewWith none = .error .nilStream := rfl

/-- Claim C2 (amended): for a first page with the correct signature, the
header-type check fails exactly when `headerType` differs from the exact
value `0x02` — an equality test, not a test of the beginning-of-stream bit. -/
theorem readHeaders_headerType_eq_check (fuel : Nat) (s : ByteStream)
    (payload : List Nat) (ph : OggPageHeader) (s1 : ByteStream)
    (hp : parseNextPage s = (.ok (payload, ph), s1))
    (hsig : ph.sig = oggSBytes) :
    (readHeaders fuel s).1 = .error .wrongHeaderType ↔
      ph.headerType ≠ pageHeaderTypeBeginningOfStream := by
  simp only [readHeaders, hp]
  rw [if_neg (by simp [hsig])]
  by_cases hht : ph.headerType ≠ pageHeaderTypeBeginningOfStream
  · rw [if_pos hht]; simp [hht]
  · rw [if_neg hht]
    simp only [hht, iff_false]
    split_ifs
    all_goals try exact fun hcon => OggErr.noConfusion (Except.error.inj hcon)
    rcases hcl : commentLoop fuel s1 with ⟨res2, s2⟩
    cases res2 with
    | error e2 =>
      simp only [hcl]
      intro hcon
      have he2 : (commentLoop fuel s1).1 = .error e2 := by rw [hcl]
      rcases commentLoop_error_kinds fuel s1 e2 he2 with h1 | h1 | h1 | h1 <;>
        subst h1 <;> exact OggErr.noConfusion (Except.error.inj hcon)
    | ok u => cases u; simp only [hcl]; exact fun hcon => Except.noConfusion hcon

/-- Claim C4: when the page at cursor `p` is complete in the source and its
payload does not contain `"OpusTags"`, the comment loop consumes the page —
advancing the cursor by `28 + len(payload)` — and rewinds by exactly that
amount, leaving the cursor back at `p`, so the caller's next `ParseNextPage`
returns the identical page (same header bytes and payload bytes). -/
theorem readHeaders_rewind_exact (d : List Nat) (p fuel : Nat)
    (hav : p + 28 + byteAt d (p + 27) ≤ d.length)
    (hni : containsBytes opusTagsBytes (bytesAt d (p + 28) (byteAt d (p + 27))) = false) :
    commentLoop (fuel + 1) ⟨d, p⟩ = (.ok (), ⟨d, p⟩) ∧
    parseNextPage ⟨d, p⟩ =
      (.ok (bytesAt d (p + 28) (byteAt d (p + 27)),
            mkPageHeader (bytesAt d p 28)
              (if byteAt d (p + 27) = 0 then 0
               else leUint (bytesAt d (p + 22) 4))),
       ⟨d, p + 28 + byteAt d (p + 27)⟩) := by
  have hp := parse_complete d p (byteAt d (p + 27)) rfl hav
  refine ⟨?_, hp⟩
  have hlen : (bytesAt d (p + 28) (byteAt d (p + 27))).length = byteAt d (p + 27) := by
    rw [length_bytesAt]; omega
  have hseek : seekBy ⟨d, p + 28 + byteAt d (p + 27)⟩
      (-(((pageHeaderLen + (bytesAt d (p + 28) (byteAt d (p + 27))).length : Nat)) : Int)) =
      .ok ⟨d, p⟩ := by
    rw [hlen]
    simp only [seekBy, pageHeaderLen]
    rw [if_neg (by push_cast; omega)]
    have harg : (((p + 28 + byteAt d (p + 27) : Nat) : Int) +
        -(((28 + byteAt d (p + 27) : Nat) : Int))).toNat = p := by
      push_cast; omega
    rw [harg]
  simp only [commentLoop, hp, hni, Bool.false_eq_true, if_false, hseek]

/-- Claim C5: the decoded stream-header fields are the little-endian values
at the fixed payload offsets (version@8, channelCount@9, preSkip@10,
sampleRate@12, outputGain@16, channelMappingFamily@18), and a sample rate
encoded little-endian at offset 12 decodes back to the same value. -/
theorem decodeOggHeader_offsets_roundtrip (payload pre rest : List Nat) (v : Nat)
    (_hlen : 19 ≤ payload.length) (hpre : pre.length = 12) (hv : v < 2 ^ 32) :
    (decodeOggHeader payload).Version = byteAt payload 8 ∧
    (decodeOggHeader payload).Channels = byteAt payload 9 ∧
    (decodeOggHeader payload).PreSkip = leUint (bytesAt payload 10 2) ∧
    (decodeOggHeader payload).SampleRate = leUint (bytesAt payload 12 4) ∧
    (decodeOggHeader payload).OutputGain = leUint (bytesAt payload 16 2) ∧
    (decodeOggHeader payload).ChannelMap = byteAt payload 18 ∧
    (decodeOggHeader (pre ++ (leBytes 4 v ++ rest))).SampleRate = v := by
  refine ⟨rfl, rfl, rfl, rfl, rfl, rfl, ?_⟩
  show leUint (((pre ++ (leBytes 4 v ++ rest)).drop 12).take 4) = v
  have hlb : (leBytes 4 v).length = 4 := rfl
  rw [List.drop_left' hpre, List.take_left' hlb, leUint_leBytes]
  have h256 : (256 : Nat) ^ 4 = 2 ^ 32 := by norm_num
  rw [h256, Nat.mod_eq_of_lt hv]

/-- Claim C7: a page whose 28 header bytes and declared payload are fully
available parses successfully — no signature or header-type validation at
this layer — and the returned header fields are the little-endian decodings
at the fixed offsets of the layout table, with the payload length equal to
the size byte at offset 27. -/
theorem parseNextPage_header_layout (d : List Nat) (p : Nat)
    (hav : p + 28 + byteAt d (p + 27) ≤ d.length) :
    ∃ payload ph s',
      parseNextPage ⟨d, p⟩ = (.ok (payload, ph), s') ∧
      ph.sig = bytesAt d p 4 ∧
      ph.version = byteAt d (p + 4) ∧
      ph.headerType = byteAt d (p + 5) ∧
      ph.granulePos = leUint (bytesAt d (p + 6) 8) ∧
      ph.serial = leUint (bytesAt d (p + 14) 4) ∧
      ph.index = leUint (bytesAt d (p + 18) 4) ∧
      ph.segmentsCount = byteAt d (p + 26) ∧
      payload.length = byteAt d (p + 27) := by
  refine ⟨_, _, _, parse_complete d p (byteAt d (p + 27)) rfl hav,
    ?_, ?_, ?_, ?_, ?_, ?_, ?_, ?_⟩
  · exact take_bytesAt d p 28 4 (by norm_num)
  · exact byteAt_bytesAt d p 28 4 (by norm_num)
  · exact byteAt_bytesAt d p 28 5 (by norm_num)
  · rw [show (mkPageHeader (bytesAt d p 28) _).granulePos =
        leUint (bytesAt (bytesAt d p 28) 6 8) from rfl,
      bytesAt_bytesAt d p 28 6 8 (by norm_num)]
  · rw [show (mkPageHeader (bytesAt d p 28) _).serial =
        leUint (bytesAt (bytesAt d p 28) 14 4) from rfl,
      bytesAt_bytesAt d p 28 14 4 (by norm_num)]
  · rw [show (mkPageHeader (bytesAt d p 28) _).index =
        leUint (bytesAt (bytesAt d p 28) 18 4) from rfl,
      bytesAt_bytesAt d p 28 18 4 (by norm_num)]
  · exact byteAt_bytesAt d p 28 26 (by norm_num)
  · rw [length_bytesAt]; omega

/-- Claim C8: a successful `ParseNextPage` records the checksum from header
bytes 22–25 exactly when the declared payload size (header byte 27) is
non-zero; with a zero size byte the checksum field keeps its zero value and
the payload is empty. -/
theorem parseNextPage_checksum_iff (s : ByteStream) (payload : List Nat)
    (ph : OggPageHeader) (s' : ByteStream)
    (h : parseNextPage s = (.ok (payload, ph), s')) :
    (byteAt s.data (s.pos + 27) = 0 → ph.checksum = 0 ∧ payload = []) ∧
    (byteAt s.data (s.pos + 27) ≠ 0 →
      ph.checksum = leUint (bytesAt s.data (s.pos + 22) 4)) := by
  obtain ⟨d, p⟩ := s
  have hb : byteAt (bytesAt d p pageHeaderLen) 27 = byteAt d (p + 27) :=
    byteAt_bytesAt d p pageHeaderLen 27 (by norm_num)
  by_cases h0 : d.length - p = 0
  · simp only [parseNextPage, if_pos h0] at h
    injection h with ha _; exact Except.noConfusion ha
  by_cases h1 : d.length - p < pageHeaderLen
  · simp only [parseNextPage, if_neg h0, if_pos h1] at h
    injection h with ha _; exact Except.noConfusion ha
  by_cases h2 : byteAt (bytesAt d p pageHeaderLen) 27 = 0
  · simp only [parseNextPage, if_neg h0, if_neg h1, if_pos h2] at h
    injection h with ha _
    obtain ⟨hpl, hph⟩ := Prod.mk.injEq .. ▸ Except.ok.inj ha
    subst hph
    subst hpl
    constructor
    · exact fun _ => ⟨rfl, rfl⟩
    · intro hne
      rw [hb] at h2
      exact absurd h2 hne
  by_cases h3 : d.length - (p + pageHeaderLen) = 0
  · simp only [parseNextPage, if_neg h0, if_neg h1, if_neg h2, if_pos h3] at h
    injection h with ha _; exact Except.noConfusion ha
  · simp only [parseNextPage, if_neg h0, if_neg h1, if_neg h2, if_neg h3] at h
    injection h with ha _
    obtain ⟨hpl, hph⟩ := Prod.mk.injEq .. ▸ Except.ok.inj ha
    subst hph
    constructor
    · intro hz
      rw [hb] at h2
      exact absurd hz h2
    · intro _
      show leUint (bytesAt (bytesAt d p pageHeaderLen) 22 4) =
        leUint (bytesAt d (p + 22) 4)
      rw [bytesAt_bytesAt d p pageHeaderLen 22 4 (by norm_num)]

/-- Claim C10: with fuel bounding the source length, header extraction never
exhausts the comment-skipping loop: each iteration of the loop consumes at
least 28 bytes of the finite source, so the loop exits or fails first. -/
theorem readHeaders_terminates (fuel : Nat) (s : ByteStream)
    (h : s.data.length - s.pos < 28 * fuel) :
    (readHeaders fuel s).1 ≠ .error .outOfFuel := by
  rcases hp : parseNextPage s with ⟨res, s1⟩
  cases res with
  | error e =>
    simp only [readHeaders, hp]
    intro hcon
    have he : (parseNextPage s).1 = .error e := by rw [hp]
    rcases parse_error_kinds s e he with h1 | h1 <;> subst h1 <;>
      exact OggErr.noConfusion (Except.error.inj hcon)
  | ok pr =>
    obtain ⟨pl, ph⟩ := pr
    obtain ⟨hd, hlo, hhi⟩ := parse_ok_bounds s pl ph s1 hp
    simp only [readHeaders, hp]
    split_ifs
    all_goals try exact fun hcon => OggErr.noConfusion (Except.error.inj hcon)
    rcases hcl : commentLoop fuel s1 with ⟨res2, s2⟩
    cases res2 with
    | error e2 =>
      simp only [hcl]
      intro hcon
      have he2 : (commentLoop fuel s1).1 = .error e2 := by rw [hcl]
      have hno := commentLoop_not_outOfFuel fuel s1 (by rw [hd]; omega)
      rw [he2] at hno
      rw [Except.error.inj hcon] at hno
      exact hno rfl
    | ok u => cases u; simp only [hcl]; exact fun hcon => Except.noConfusion hcon

/-- Counter preservation under iterated page reads. -/
lemma iterParse_counter (n : Nat) (r : OggReader) :
    (iterParse r n).bytesReadSuccesfully = r.bytesReadSuccesfully := by
  induction n generalizing r with
  | zero => rfl
  | succ n ih =>
    rw [iterParse, ih]
    rfl

/-- Claim C6: no page read — successful or failed — changes the
bytes-consumed counter, and `ResetReader` hands its factory the counter's
current value; for a reader built by `NewWith` the factory therefore always
receives the initial value zero, after any number of page reads. -/
theorem bytesRead_constant_resetReader_zero :
    (∀ r : OggReader,
      ((OggReader.ParseNextPage r).2).bytesReadSuccesfully = r.bytesReadSuccesfully) ∧
    (∀ (s : ByteStream) (r0 : OggReader) (h0 : OggHeader),
      NewWith (some s) = .ok (r0, h0) →
      ∀ (n : Nat) (reset : Nat → ByteStream),
        ((iterParse r0 n).ResetReader reset).stream = reset 0) := by
  constructor
  · intro r; rfl
  · intro s r0 h0 hnw n reset
    have hc : r0.bytesReadSuccesfully = 0 := by
      simp only [NewWith] at hnw
      rcases hr : readHeaders (s.data.length + 1) s with ⟨res, s'⟩
      rw [hr] at hnw
      cases res with
      | error e => exact Except.noConfusion hnw
      | ok hh =>
        obtain ⟨hr0, _⟩ := Prod.mk.injEq .. ▸ Except.ok.inj hnw
        rw [← hr0]
    show reset (iterParse r0 n).bytesReadSuccesfully = reset 0
    rw [iterParse_counter, hc]

/-! Concrete values for the witnesses. -/

/-- The page header of the first page of `goodData`. -/
def goodIdPageHd : OggPageHeader :=
  { sig := oggSBytes, version := 0, headerType := 2, granulePos := 0,
    serial := 0, index := 0, segmentsCount := 1, checksum := 0 }

/-- The reader produced by `NewWith` on `goodData`. -/
def goodReader0 : OggReader := { stream := ⟨goodData, 83⟩, bytesReadSuccesfully := 0 }

/-- The stream header decoded from `goodData`. -/
def goodHeader0 : OggHeader :=
  { ChannelMap := 0, Channels := 2, OutputGain := 0, PreSkip := 16,
    SampleRate := 48000, Version := 1 }

/-! Witnesses: each applies its claim's theorem at a concrete input. -/

theorem readHeaders_headerType_eq_check_witness :
    ((readHeaders 10 ⟨goodData, 0⟩).1 = .error .wrongHeaderType ↔
      goodIdPageHd.headerType ≠ pageHeaderTypeBeginningOfStream) :=
  readHeaders_headerType_eq_check 10 ⟨goodData, 0⟩ idPayload goodIdPageHd
    ⟨goodData, 47⟩ (by decide) (by decide)

theorem readHeaders_rewind_exact_witness :
    commentLoop 1 ⟨goodData, 83⟩ = (.ok (), ⟨goodData, 83⟩) ∧
    parseNextPage ⟨goodData, 83⟩ =
      (.ok (bytesAt goodData (83 + 28) (byteAt goodData (83 + 27)),
            mkPageHeader (bytesAt goodData 83 28)
              (if byteAt goodData (83 + 27) = 0 then 0
               else leUint (bytesAt goodData (83 + 22) 4))),
       ⟨goodData, 83 + 28 + byteAt goodData (83 + 27)⟩) :=
  readHeaders_rewind_exact goodData 83 0 (by decide) (by decide)

theorem decodeOggHeader_offsets_roundtrip_witness :
    (decodeOggHeader idPayload).Version = byteAt idPayload 8 ∧
    (decodeOggHeader idPayload).Channels = byteAt idPayload 9 ∧
    (decodeOggHeader idPayload).PreSkip = leUint (bytesAt idPayload 10 2) ∧
    (decodeOggHeader idPayload).SampleRate = leUint (bytesAt idPayload 12 4) ∧
    (decodeOggHeader idPayload).OutputGain = leUint (bytesAt idPayload 16 2) ∧
    (decodeOggHeader idPayload).ChannelMap = byteAt idPayload 18 ∧
    (decodeOggHeader (List.replicate 12 0 ++ (leBytes 4 48000 ++ []))).SampleRate = 48000 :=
  decodeOggHeader_offsets_roundtrip idPayload (List.replicate 12 0) [] 48000
    (by decide) (by decide) (by decide)

theorem bytesRead_constant_resetReader_zero_witness :
    ((iterParse goodReader0 2).ResetReader (fun k => ⟨[], k⟩)).stream = ⟨[], 0⟩ :=
  bytesRead_constant_resetReader_zero.2 ⟨goodData, 0⟩ goodReader0 goodHeader0
    (by decide) 2 (fun k => ⟨[], k⟩)

theorem parseNextPage_header_layout_witness :
    ∃ payload ph s',
      parseNextPage ⟨goodData, 0⟩ = (.ok (payload, ph), s') ∧
      ph.sig = bytesAt goodData 0 4 ∧
      ph.version = byteAt goodData 4 ∧
      ph.headerType = byteAt goodData 5 ∧
      ph.granulePos = leUint (bytesAt goodData 6 8) ∧
      ph.serial = leUint (bytesAt goodData 14 4) ∧
      ph.index = leUint (bytesAt goodData 18 4) ∧
      ph.segmentsCount = byteAt goodData 26 ∧
      payload.length = byteAt goodData 27 :=
  parseNextPage_header_layout goodData 0 (by decide)

theorem parseNextPage_checksum_iff_witness :
    (byteAt goodData 27 = 0 → goodIdPageHd.checksum = 0 ∧ idPayload = []) ∧
    (byteAt goodData 27 ≠ 0 →
      goodIdPageHd.checksum = leUint (bytesAt goodData 22 4)) :=
  parseNextPage_checksum_iff ⟨goodData, 0⟩ idPayload goodIdPageHd ⟨goodData, 47⟩
    (by decide)

theorem readHeaders_terminates_witness :
    (readHeaders 5 ⟨goodData, 0⟩).1 ≠ .error .outOfFuel :=
  readHeaders_terminates 5 ⟨goodData, 0⟩ (by decide)

end Ogg
